import Mathlib

/-!
Shallow embedding of the oci-context repository core:
the persisted context store (pkg/config/config.go), the daemon service
dispatcher (internal/daemon/daemon.go), the line-framed IPC connection loop
(internal/ipc/server.go) and the interactive TUI navigation engine
(internal/cmd tui source).

File I/O, locking, terminal rendering and the remote OCI SDK calls are
external collaborators: they are modelled as explicit effects or parameters,
never as stubs that change the control flow being verified.
-/

namespace OciContext

/-- Model of `config.Context` from pkg/config/config.go: a selectable OCI context. -/
structure Context where
  name : String
  profile : String
  tenancyOCID : String
  compartmentOCID : String
  region : String
  user : String
  notes : String
  deriving DecidableEq, Repr, Inhabited

/-- Model of `config.Options` from pkg/config/config.go. -/
structure Options where
  ociConfigPath : String
  socketPath : String
  defaultProfile : String
  deriving DecidableEq, Repr, Inhabited

/-- Model of `config.Config` from pkg/config/config.go: the persisted state. -/
structure Config where
  options : Options
  contexts : List Context
  currentContext : String
  deriving DecidableEq, Repr, Inhabited

/-- Whether a context with the given name occurs in the list (the search
performed by the loop in `UpsertContext` / `GetContext`). -/
def containsName (cs : List Context) (n : String) : Bool :=
  cs.any (fun c => c.name == n)

/-- The in-place replacement of the first context whose name matches,
mirroring `c.Contexts[i] = ctx` inside the loop of `UpsertContext`. -/
def replaceFirstByName : List Context → Context → List Context
  | [], _ => []
  | c :: rest, ctx =>
      if c.name == ctx.name then ctx :: rest
      else c :: replaceFirstByName rest ctx

/-- Model of `Config.UpsertContext` (pkg/config/config.go): replaces the first context
with a matching name; otherwise appends the context and, if no current
context is set, makes it current.  The Go method's error return is always
nil, so the embedding is total. -/
def Config.UpsertContext (c : Config) (ctx : Context) : Config :=
  if containsName c.contexts ctx.name then
    { c with contexts := replaceFirstByName c.contexts ctx }
  else
    { c with
      contexts := c.contexts ++ [ctx]
      currentContext :=
        if c.currentContext == "" then ctx.name else c.currentContext }

/-- Removal of the first context with a matching name, mirroring
`append(c.Contexts[:idx], c.Contexts[idx+1:]...)` in `DeleteContext`. -/
def removeFirstByName : List Context → String → List Context
  | [], _ => []
  | c :: rest, n =>
      if c.name == n then rest
      else c :: removeFirstByName rest n

/-- Model of `Config.DeleteContext` (pkg/config/config.go): removes a context by name,
clearing `currentContext` when it pointed at the deleted entry; returns
`ErrContextNotFound` when the name is absent. -/
def Config.DeleteContext (c : Config) (n : String) : Except String Config :=
  if containsName c.contexts n then
    .ok { c with
          contexts := removeFirstByName c.contexts n
          currentContext := if c.currentContext == n then "" else c.currentContext }
  else
    .error "context not found"

/-- Model of `Config.GetContext` (pkg/config/config.go). -/
def Config.GetContext (c : Config) (n : String) : Except String Context :=
  match c.contexts.find? (fun ctx => ctx.name == n) with
  | some ctx => .ok ctx
  | none => .error "context not found"

/-- Model of `Context.Validate` (pkg/config/config.go): minimal required fields. -/
def Context.Validate (ctx : Context) : Except String Unit :=
  if ctx.name == "" then .error "context name is required"
  else if ctx.profile == "" then .error "context profile is required"
  else if ctx.tenancyOCID == "" then .error "context tenancy_ocid is required"
  else if ctx.compartmentOCID == "" then .error "context compartment_ocid is required"
  else .ok ()

/-- One store mutation as issued by callers of the context store. -/
inductive StoreOp where
  | upsert (ctx : Context)
  | delete (n : String)
  deriving Repr

/-- Applying one store operation; a failed delete (NotFound) leaves the
config unchanged, exactly as the callers that surface the error do. -/
def applyStoreOp (c : Config) (op : StoreOp) : Config :=
  match op with
  | .upsert ctx => c.UpsertContext ctx
  | .delete n =>
      match c.DeleteContext n with
      | .ok c2 => c2
      | .error _ => c

/-- Folding a whole sequence of store operations over a config. -/
def applyStoreOps (c : Config) (ops : List StoreOp) : Config :=
  ops.foldl applyStoreOp c

/-- The data-model invariant: `currentContext` is empty or names a stored
context. -/
def currentOK (c : Config) : Prop :=
  c.currentContext = "" ∨ containsName c.contexts c.currentContext = true

instance (c : Config) : Decidable (currentOK c) := by
  unfold currentOK; infer_instance

/-! ### Line-framed IPC connection loop (internal/ipc/server.go) -/

/-- Model of `ipc.Request` from pkg/ipc: an IPC request.  The opaque
`json.RawMessage` context payload is kept as its raw text. -/
structure Request where
  method : String
  name : String
  format : String
  context : String
  deriving DecidableEq, Repr, Inhabited

/-- Model of `ipc.Response` from pkg/ipc, with the daemon's payload type `δ`;
an absent error is the empty string (Go `omitempty`). -/
structure Response (δ : Type) where
  ok : Bool
  error : String
  data : Option δ
  deriving DecidableEq, Repr

/-- One newline-terminated line received on a connection, classified by the
outcome of `json.Unmarshal` into a `Request` (the JSON parser itself is the
external `encoding/json` collaborator): either text that fails to parse, or
a line parsing to the given request. -/
inductive WireLine where
  | malformed
  | request (r : Request)
  deriving DecidableEq, Repr

/-- Model of `handleConn` (internal/ipc/server.go): the per-connection loop.  The
input list holds the lines successfully read before the first read error
(e.g. EOF) ends the loop; each line is answered with exactly one response.
A line that fails to unmarshal is answered with
`{ok:false, error:"invalid request"}` and the loop continues. -/
def handleConn {δ : Type} (handler : Request → Except String δ) :
    List WireLine → List (Response δ)
  | [] => []
  | .malformed :: rest =>
      { ok := false, error := "invalid request", data := none } :: handleConn handler rest
  | .request r :: rest =>
      (match handler r with
       | .error e => { ok := false, error := e, data := none }
       | .ok d => { ok := true, error := "", data := some d }) :: handleConn handler rest

/-! ### Daemon service (internal/daemon/daemon.go) -/

/-- The two shapes of the `export` reply: env lines or the structured
current-context payload. -/
inductive ExportData where
  | env (lines : List String)
  | ctxData (c : Context)
  deriving DecidableEq, Repr

namespace Service

/-- Model of `Service.getCurrent` (internal/daemon/daemon.go). -/
def getCurrent (cfg : Config) : Except String Context :=
  if cfg.currentContext == "" then .error "no current context set"
  else cfg.GetContext cfg.currentContext

/-- The env lines built by the `"env"` arm of `Service.export`. -/
def envLines (c : Context) : List String :=
  let base := ["OCI_CLI_PROFILE=" ++ c.profile,
               "OCI_TENANCY_OCID=" ++ c.tenancyOCID,
               "OCI_COMPARTMENT_OCID=" ++ c.compartmentOCID]
  if c.region != "" then base ++ ["OCI_REGION=" ++ c.region] else base

/-- Model of `Service.export` (internal/daemon/daemon.go): the current context as env
lines for `"env"`, the structured payload for `"json"` and `""`, and an
unsupported-format error otherwise. -/
def «export» (cfg : Config) (format : String) : Except String ExportData :=
  match getCurrent cfg with
  | .error e => .error e
  | .ok c =>
      if format == "env" then .ok (.env (envLines c))
      else if format == "json" || format == "" then .ok (.ctxData c)
      else .error ("unsupported format: " ++ format)

end Service

/-! ### OCI profiles and tenancy grouping (pkg/ocicfg, internal/cmd tui) -/

/-- Model of `ocicfg.Profile`: the minimal OCI CLI profile fields. -/
structure Profile where
  user : String
  tenancy : String
  region : String
  deriving DecidableEq, Repr, Inhabited

/-- A Go `map[string]V` keyed by strings, embedded as its entry list (keys
pairwise distinct in a real map); lookup finds the first matching key. -/
def listLookup {α : Type} : List (String × α) → String → Option α
  | [], _ => none
  | (k', v) :: rest, k => if k' == k then some v else listLookup rest k

/-- Go map assignment `m[k] = v`: replaces the entry for an existing key,
otherwise appends it. -/
def listInsert {α : Type} : List (String × α) → String → α → List (String × α)
  | [], k, v => [(k, v)]
  | (k', v') :: rest, k, v =>
      if k' == k then (k, v) :: rest else (k', v') :: listInsert rest k v

/-- Model of `sort.Strings`: the standard library sort on strings.  The sorted
rearrangement of a list is unique under the linear order on `String`, so any
sorting algorithm is a faithful model. -/
def sortStrings (l : List String) : List String :=
  l.insertionSort (· ≤ ·)

/-- Model of `tenancyItem` (internal/cmd tui): a tenancy grouped from profiles. -/
structure tenancyItem where
  tenancyOCID : String
  profiles : List String
  name : String
  deriving DecidableEq, Repr, Inhabited

/-- Model of `abbreviateOCID` (internal/cmd tui): shortens an OCID for display.
The Go byte slicing coincides with character slicing on ASCII OCIDs. -/
def abbreviateOCID (s : String) : String :=
  if s.length ≤ 16 then s else s.take 6 ++ "…" ++ s.takeRight 6

/-- Model of `tenanciesFromProfiles` (internal/cmd tui): groups profiles by tenancy
OCID into tenancy items; tenancy OCIDs and the profile names under each are
sorted for stable order.  The friendly-name cache (`lookupTenancyName`) is
passed as a function. -/
def tenanciesFromProfiles (profiles : List (String × Profile))
    (tenancyNames : String → String) : List tenancyItem :=
  let ocids := sortStrings ((profiles.map (fun nv => nv.2.tenancy)).dedup)
  ocids.map fun ocid =>
    { tenancyOCID := ocid
      profiles := sortStrings ((profiles.filter
          (fun nv => nv.2.tenancy == ocid)).map (fun nv => nv.1))
      name := tenancyNames ocid }

/-- Model of `selectProfileForTenancy` (internal/cmd tui): prefers the configured
default profile when it exists and belongs to the tenancy, else the first
profile listed under the tenancy, else the empty string. -/
def selectProfileForTenancy (item : tenancyItem)
    (profiles : List (String × Profile)) (defaultProfile : String) : String :=
  let defOK := defaultProfile != "" &&
    (match listLookup profiles defaultProfile with
     | some p => p.tenancy == item.tenancyOCID
     | none => false)
  if defOK then defaultProfile
  else
    match item.profiles with
    | [] => ""
    | p :: _ => p

/-- Model of `contextItemForProfile` (internal/cmd tui): the synthetic context built
from a profile entry. -/
def contextItemForProfile (name : String) (p : Profile) : Context :=
  { name := name, profile := name, tenancyOCID := p.tenancy,
    compartmentOCID := p.tenancy, region := p.region, user := p.user,
    notes := "" }

/-! ### TUI navigation engine (internal/cmd tui source)

The bubbles `list.Model` widget is an external collaborator; the model keeps
the state the engine reads and writes through its API: the item list, the
cursor index, whether the widget is in `Filtering` state, and the filtered
subset (`VisibleItems`) the widget computes while filtering.  Rendering,
styling, window sizes and delegate wiring are presentation-only and not
modelled.  Keys routed into the widget while it is filtering (`forwardList`
effects) edit only the widget's internal filter editor. -/

/-- Model of `oci.Compartment` wrapped as `compItem` (internal/cmd tui). -/
structure compItem where
  id : String
  name : String
  status : String
  parent : String
  deriving DecidableEq, Repr, Inhabited

/-- The slice of a bubbles `list.Model` the navigation engine interacts
with. -/
structure UiList (α : Type) where
  items : List α
  index : Nat
  filtering : Bool
  visible : List α
  deriving DecidableEq, Repr

/-- Model of `list.Model.SelectedItem`: the item under the cursor.  In every state
the engine's hotkeys run in, the widget is not filtering and the visible
items equal `items`. -/
def UiList.selectedItem {α : Type} (l : UiList α) : Option α :=
  l.items.get? l.index

/-- Model of `SetItems` followed by `Select(0)`: replaces the items (resetting the
filtered subset) and moves the cursor to the top. -/
def UiList.setItemsSelect0 {α : Type} (l : UiList α) (items : List α) : UiList α :=
  { l with items := items, visible := items, index := 0 }

/-- Model of `SetItems` alone (cursor untouched). -/
def UiList.setItems {α : Type} (l : UiList α) (items : List α) : UiList α :=
  { l with items := items, visible := items }

/-- Model of `SetFilterText("")` + `SetFilterState(Filtering)`: enter filtering with
an empty query, so every item is visible. -/
def UiList.startFiltering {α : Type} (l : UiList α) : UiList α :=
  { l with filtering := true, visible := l.items }

/-- The enter-while-filtering branch: freeze the filtered subset as the item
list, leave filtering, and select the top element when non-empty. -/
def UiList.applyFilterEnter {α : Type} (l : UiList α) : UiList α :=
  { l with items := l.visible, filtering := false,
           index := if l.visible.isEmpty then l.index else 0 }

/-- The zero `contextItem{}` compared against in the `"C"` key handler. -/
def emptyContext : Context :=
  { name := "", profile := "", tenancyOCID := "", compartmentOCID := "",
    region := "", user := "", notes := "" }

/-- Model of `parentLabel` (internal/cmd tui): friendly label for the current parent. -/
def parentLabel (parent : String) (item : Context) : String :=
  if parent == item.tenancyOCID then "root" else parent

/-- Model of `selectInitialContext` (internal/cmd tui): the current context when
present among the items, else the first item. -/
def selectInitialContext (items : List Context) (current : String) : Option Context :=
  if current != "" then
    match items.find? (fun ci => ci.name == current) with
    | some ci => some ci
    | none => items.head?
  else items.head?

/-- Model of `fallbackRegions` (internal/cmd tui): the built-in region list used when
the remote region fetch fails. -/
def fallbackRegions : List String :=
  ["us-ashburn-1", "us-phoenix-1", "eu-frankfurt-1", "eu-zurich-1",
   "uk-london-1", "ap-tokyo-1", "ap-osaka-1", "ap-seoul-1", "ap-mumbai-1",
   "ap-sydney-1", "ap-melbourne-1", "sa-saopaulo-1", "ca-toronto-1",
   "af-johannesburg-1", "me-dubai-1", "me-jeddah-1", "il-jerusalem-1"]

/-- Model of `tuiModel` (internal/cmd tui): the navigation engine's state. -/
structure tuiModel where
  list : UiList Context
  tenancies : UiList tenancyItem
  cfg : Config
  cfgPath : String
  selected : String
  profiles : List (String × Profile)
  err : Option String
  mode : String
  ctxItem : Context
  comps : UiList compItem
  regions : UiList String
  parentCrumb : String
  compCache : List (String × List compItem)
  parentID : String
  parentMap : List (String × String)
  nameMap : List (String × String)
  status : String
  finalized : Bool
  crumb : String
  regionSet : Bool
  regionCache : List (String × List String)
  pendingSelectionID : String
  pendingSelectionNm : String
  pendingRegion : String
  pendingContextName : String
  pendingTenancyOCID : String
  ultraCompact : Bool
  deriving DecidableEq, Repr

/-- The messages fed to `tuiModel.Update` that drive navigation: key events
and the completion events of the two async fetch tasks.  Window-size
messages only resize the widgets and are presentation-only. -/
inductive Msg where
  | key (k : String)
  | compResult (parent : String) (items : List compItem) (err : Option String)
  | regionResult (ctxName : String) (items : List String) (err : Option String)
  deriving DecidableEq, Repr

/-- The observable actions of one `Update` step: quitting the session,
invoking `config.Save`, scheduling `loadCompsCmd` (which consults the
compartment cache before any remote call) or `loadRegionsCmd` (which always
performs the remote region fetch), or routing the message into the active
list widget. -/
inductive Eff where
  | quit
  | save (path : String) (cfg : Config)
  | loadComps (parent : String)
  | loadRegions (ctx : Context)
  | forwardList (mode : String)
  deriving DecidableEq, Repr

/-- Model of `finalizeSelection` (internal/cmd tui): sets the chosen compartment,
makes the context current, upserts it, saves the config and quits.  The
outcome of the `config.Save` write is decided by the file system; the
effect records the single invocation. -/
def tuiModel.finalizeSelection (m : tuiModel) : tuiModel × List Eff :=
  let ctx := { m.ctxItem with compartmentOCID := m.parentID }
  let cfg1 := { m.cfg with currentContext := ctx.name }
  let cfg2 := cfg1.UpsertContext ctx
  ({ m with finalized := true, selected := m.ctxItem.name, ctxItem := ctx,
            cfg := cfg2 },
   [Eff.save m.cfgPath cfg2, Eff.quit])

/-- Model of `goUpOne` (internal/cmd tui): navigate to the recorded parent, falling
back to the tenancy id; at the tenancy root return to `contexts`. -/
def tuiModel.goUpOne (m : tuiModel) : tuiModel × List Eff :=
  if m.parentID == m.ctxItem.tenancyOCID then
    ({ m with mode := "contexts", status := "", crumb := "" }, [])
  else
    let parent0 := (listLookup m.parentMap m.parentID).getD ""
    let parent := if parent0 == "" then m.ctxItem.tenancyOCID else parent0
    let nm := (listLookup m.nameMap parent).getD ""
    let crumbLbl := if nm != "" then nm else parentLabel parent m.ctxItem
    ({ m with parentID := parent, parentCrumb := crumbLbl,
              status := "Loading compartments...",
              crumb := "Current: " ++ crumbLbl ++ " (" ++ parent ++ ")" },
     [Eff.loadComps parent])

/-- The shared open-compartments block (enter on a context row, and the
`"c"`/`"C"` shortcuts): reset the parent/name maps for the new drill
session, position at the context's compartment (or tenancy root) and
schedule the child fetch. -/
def tuiModel.openCompartmentsFor (m : tuiModel) (ctx : Context) : tuiModel × List Eff :=
  let parent := if ctx.compartmentOCID == "" then ctx.tenancyOCID else ctx.compartmentOCID
  let crumbLbl := parentLabel parent ctx
  let pm := listInsert ([] : List (String × String)) parent ctx.tenancyOCID
  let nm1 := listInsert ([] : List (String × String)) parent crumbLbl
  let nm2 := listInsert nm1 ctx.tenancyOCID (parentLabel ctx.tenancyOCID ctx)
  ({ m with ctxItem := ctx, parentMap := pm, nameMap := nm2,
            parentID := parent, parentCrumb := crumbLbl,
            mode := "compartments", status := "Loading compartments...",
            crumb := "Current: " ++ crumbLbl ++ " (" ++ parent ++ ")" },
   [Eff.loadComps parent])

/-- The tenancies arm of the enter handler: resolve the representative
profile, build its synthetic context, align the contexts cursor and open
the tenancy root. -/
def tuiModel.enterTenancy (m : tuiModel) (item : tenancyItem) : tuiModel × List Eff :=
  let profileName := selectProfileForTenancy item m.profiles m.cfg.options.defaultProfile
  match listLookup m.profiles profileName with
  | none => ({ m with status := "profile " ++ profileName ++ " not found" }, [])
  | some p =>
      let ctx := contextItemForProfile profileName p
      let list' :=
        match m.list.items.findIdx? (fun ci => ci.name == profileName) with
        | some i => { m.list with index := i }
        | none => m.list
      let parent := item.tenancyOCID
      let crumbLbl := parentLabel parent ctx
      let pm := listInsert ([] : List (String × String)) parent item.tenancyOCID
      let nm1 := listInsert ([] : List (String × String)) parent crumbLbl
      let nm2 := listInsert nm1 item.tenancyOCID (parentLabel item.tenancyOCID ctx)
      ({ m with ctxItem := ctx, pendingSelectionID := "", pendingSelectionNm := "",
                pendingRegion := "", list := list',
                parentMap := pm, nameMap := nm2,
                parentID := parent, parentCrumb := crumbLbl,
                mode := "compartments", status := "Loading compartments...",
                crumb := "Current: " ++ crumbLbl ++ " (" ++ parent ++ ")" },
       [Eff.loadComps parent])

/-- The `"enter"`/`"right"` handler of `tuiModel.Update`. -/
def tuiModel.keyEnter (m : tuiModel) : tuiModel × List Eff :=
  if m.mode == "contexts" && m.list.filtering then
    ({ m with list := m.list.applyFilterEnter }, [])
  else if m.mode == "tenancies" && m.tenancies.filtering then
    ({ m with tenancies := m.tenancies.applyFilterEnter }, [])
  else if m.mode == "compartments" && m.comps.filtering then
    ({ m with comps := m.comps.applyFilterEnter }, [])
  else if m.mode == "regions" && m.regions.filtering then
    ({ m with regions := m.regions.applyFilterEnter }, [])
  else if m.mode == "contexts" then
    match m.list.selectedItem with
    | some item =>
        tuiModel.openCompartmentsFor
          { m with pendingSelectionID := "", pendingSelectionNm := "",
                   pendingRegion := "" } item
    | none => (m, [Eff.forwardList m.mode])
  else if m.mode == "tenancies" then
    if m.tenancies.items.isEmpty then
      ({ m with status := "No tenancies available" }, [])
    else
      match m.tenancies.selectedItem with
      | some item => m.enterTenancy item
      | none => (m, [])
  else if m.mode == "compartments" then
    if m.comps.items.isEmpty then m.finalizeSelection
    else
      match m.comps.selectedItem with
      | some item =>
          ({ m with parentID := item.id, parentCrumb := item.name,
                    nameMap := listInsert m.nameMap item.id item.name,
                    parentMap := listInsert m.parentMap item.id item.parent,
                    pendingSelectionID := "", pendingSelectionNm := "",
                    status := "Loading compartments...",
                    crumb := "Current: " ++ item.name ++ " (" ++ item.id ++ ")" },
           [Eff.loadComps item.id])
      | none => (m, [Eff.forwardList m.mode])
  else if m.mode == "regions" then
    if m.regions.items.isEmpty then (m, [])
    else
      match m.regions.selectedItem with
      | some r =>
          ({ m with ctxItem := { m.ctxItem with region := r }, regionSet := true,
                    mode := "contexts",
                    status := "Region set to " ++ r ++ " (not saved until finalize)" },
           [])
      | none => (m, [Eff.forwardList m.mode])
  else (m, [Eff.forwardList m.mode])

/-- The `" "` (space, stage) handler of `tuiModel.Update`. -/
def tuiModel.keySpace (m : tuiModel) : tuiModel × List Eff :=
  if m.mode == "contexts" then
    match m.list.selectedItem with
    | some item =>
        let parent := if item.compartmentOCID == "" then item.tenancyOCID
                      else item.compartmentOCID
        ({ m with ctxItem := item, pendingContextName := item.name,
                  pendingSelectionID := "", pendingSelectionNm := "",
                  pendingRegion := "", pendingTenancyOCID := "",
                  parentID := parent, parentCrumb := parentLabel parent item,
                  status := "Context " ++ item.name ++
                            " selected (pending save; Ctrl+S to save)" }, [])
    | none => (m, [])
  else if m.mode == "tenancies" then
    match m.tenancies.selectedItem with
    | some item =>
        let m1 := { m with pendingTenancyOCID := item.tenancyOCID }
        let profileName := selectProfileForTenancy item m.profiles m.cfg.options.defaultProfile
        (match listLookup m.profiles profileName with
         | some p =>
             let ctx := contextItemForProfile profileName p
             ({ m1 with ctxItem := ctx, pendingContextName := profileName,
                        pendingSelectionID := "", pendingSelectionNm := "",
                        pendingRegion := "",
                        parentID := item.tenancyOCID,
                        parentCrumb := parentLabel item.tenancyOCID ctx,
                        status := "Tenancy " ++ abbreviateOCID item.tenancyOCID ++
                                  " selected (pending save; Ctrl+S to save)" }, [])
         | none => (m1, []))
    | none => (m, [])
  else if m.mode == "compartments" then
    match m.comps.selectedItem with
    | some item =>
        ({ m with parentID := item.id, parentCrumb := item.name,
                  nameMap := listInsert m.nameMap item.id item.name,
                  parentMap := listInsert m.parentMap item.id item.parent,
                  pendingSelectionID := item.id, pendingSelectionNm := item.name,
                  status := "Selected " ++ item.name ++
                            " (pending save; Enter/right to drill, Ctrl+S/q to save)" },
         [])
    | none => (m, [])
  else if m.mode == "regions" then
    match m.regions.selectedItem with
    | some r =>
        ({ m with ctxItem := { m.ctxItem with region := r }, regionSet := true,
                  pendingRegion := r,
                  status := "Region set to " ++ r ++
                            " (pending save; Ctrl+S/q to save)" }, [])
    | none => (m, [])
  else (m, [])

/-- Model of `saveAndQuitCurrentMode` (internal/cmd tui): the consolidated save+exit
behaviour behind `q` and `Ctrl+S`. -/
def tuiModel.saveAndQuitCurrentMode (m : tuiModel) : tuiModel × List Eff :=
  if m.mode == "contexts" then
    match m.list.selectedItem with
    | some item =>
        let prev := m.ctxItem
        let parent0 := if m.pendingSelectionID != "" && m.parentID != "" &&
                          prev.name == item.name then m.parentID else ""
        let parent := if parent0 == "" then
            (if item.compartmentOCID == "" then item.tenancyOCID
             else item.compartmentOCID)
          else parent0
        tuiModel.finalizeSelection
          { m with ctxItem := item, parentID := parent,
                   parentCrumb := parentLabel parent item }
    | none => (m, [])
  else if m.mode == "tenancies" then
    match m.tenancies.selectedItem with
    | some item =>
        let profileName := selectProfileForTenancy item m.profiles m.cfg.options.defaultProfile
        (match listLookup m.profiles profileName with
         | some p =>
             let ctx := contextItemForProfile profileName p
             tuiModel.finalizeSelection
               { m with ctxItem := ctx, parentID := item.tenancyOCID,
                        parentCrumb := parentLabel item.tenancyOCID ctx }
         | none => (m, []))
    | none => (m, [])
  else if m.mode == "compartments" then
    m.finalizeSelection
  else if m.mode == "regions" then
    match m.regions.selectedItem with
    | some r =>
        let m1 := { m with ctxItem := { m.ctxItem with region := r },
                           regionSet := true }
        let m2 :=
          if m1.parentID == "" then
            let parent := if m1.ctxItem.compartmentOCID == "" then m1.ctxItem.tenancyOCID
                          else m1.ctxItem.compartmentOCID
            { m1 with parentID := parent,
                      parentCrumb := parentLabel parent m1.ctxItem }
          else m1
        m2.finalizeSelection
    | none => (m, [])
  else (m, [])

/-- The `"delete"`/`"backspace"` handler: back-navigation when not
filtering, else the key is routed into the filter editor. -/
def tuiModel.keyBack (m : tuiModel) : tuiModel × List Eff :=
  if m.mode == "compartments" && !m.comps.filtering then
    tuiModel.goUpOne { m with status := "Loading parent..." }
  else if m.mode == "tenancies" && !m.tenancies.filtering then
    ({ m with mode := "contexts", pendingSelectionID := "",
              pendingSelectionNm := "", status := "" }, [])
  else if m.mode == "regions" && !m.regions.filtering then
    ({ m with mode := "contexts", status := "" }, [])
  else (m, [Eff.forwardList m.mode])

/-- The `"r"` handler: open the region picker for the highlighted context
(contexts mode only), serving a cached region list without a remote fetch. -/
def tuiModel.keyRegionLower (m : tuiModel) : tuiModel × List Eff :=
  if m.mode == "contexts" then
    match m.list.selectedItem with
    | some item =>
        let m1 := { m with ctxItem := item, mode := "regions",
                           status := "Loading regions..." }
        (match listLookup m.regionCache item.name with
         | some cached =>
             ({ m1 with regions := m1.regions.setItemsSelect0 cached,
                        status := "Select region (Space to stage, Ctrl+S to save)" },
              [])
         | none => (m1, [Eff.loadRegions item]))
    | none => (m, [Eff.forwardList m.mode])
  else (m, [Eff.forwardList m.mode])

/-- The `"R"` handler: region picker from any submenu. -/
def tuiModel.keyRegionUpper (m : tuiModel) : tuiModel × List Eff :=
  if m.mode != "contexts" then
    let m1 := { m with mode := "regions", status := "Loading regions..." }
    match listLookup m.regionCache m.ctxItem.name with
    | some cached =>
        ({ m1 with regions := m1.regions.setItemsSelect0 cached,
                   status := "Select region (Space to stage, Ctrl+S to save)" }, [])
    | none => (m1, [Eff.loadRegions m.ctxItem])
  else (m, [Eff.forwardList m.mode])

/-- The `"c"` handler: open compartments from the contexts menu. -/
def tuiModel.keyCompLower (m : tuiModel) : tuiModel × List Eff :=
  if m.mode == "contexts" then
    match m.list.selectedItem with
    | some item => m.openCompartmentsFor item
    | none => (m, [Eff.forwardList m.mode])
  else (m, [Eff.forwardList m.mode])

/-- The `"C"` handler: compartments for the current context from any
submenu, picking an initial context when none is set yet. -/
def tuiModel.keyCompUpper (m : tuiModel) : tuiModel × List Eff :=
  if m.mode != "contexts" then
    let ctx0 :=
      if m.ctxItem == emptyContext then
        match selectInitialContext m.list.items m.cfg.currentContext with
        | some c => c
        | none => m.ctxItem
      else m.ctxItem
    m.openCompartmentsFor ctx0
  else (m, [Eff.forwardList m.mode])

/-- The `"t"`/`"T"` handlers: switch to the tenancy list (lowercase from the
main menu, uppercase from submenus). -/
def tuiModel.keyTenancies (m : tuiModel) (lower : Bool) : tuiModel × List Eff :=
  if (lower && m.mode == "contexts") || (!lower && m.mode != "contexts") then
    if m.tenancies.items.isEmpty then
      ({ m with status := "No tenancies available" }, [])
    else
      ({ m with mode := "tenancies",
                status := "Select tenancy (Enter to use a profile and open root)" }, [])
  else (m, [Eff.forwardList m.mode])

/-- The `"/"` handler: put the active mode's list into filtering state with
a cleared query. -/
def tuiModel.keySlash (m : tuiModel) : tuiModel × List Eff :=
  let m1 := if m.mode == "contexts" then { m with list := m.list.startFiltering } else m
  let m2 := if m1.mode == "compartments" then { m1 with comps := m1.comps.startFiltering } else m1
  let m3 := if m2.mode == "tenancies" then { m2 with tenancies := m2.tenancies.startFiltering } else m2
  let m4 := if m3.mode == "regions" then { m3 with regions := m3.regions.startFiltering } else m3
  (m4, [])

/-- The key switch of `tuiModel.Update` (after the filtering guards).  Cases
without an early `return` in the source fall through to the trailing
message forwarding into the active list. -/
def tuiModel.updateKey (m : tuiModel) (k : String) : tuiModel × List Eff :=
  if k == "enter" || k == "right" then m.keyEnter
  else if k == " " then m.keySpace
  else if k == "ctrl+s" then m.saveAndQuitCurrentMode
  else if k == "q" then m.saveAndQuitCurrentMode
  else if k == "esc" || k == "ctrl+c" then (m, [Eff.quit])
  else if k == "b" then
    let m1 := if m.mode == "contexts" then { m with status := "" } else m
    (m1, [Eff.forwardList m1.mode])
  else if k == "delete" || k == "backspace" then m.keyBack
  else if k == "r" then m.keyRegionLower
  else if k == "R" then m.keyRegionUpper
  else if k == "c" then m.keyCompLower
  else if k == "C" then m.keyCompUpper
  else if k == "t" then m.keyTenancies true
  else if k == "T" then m.keyTenancies false
  else if k == "p" then
    if m.mode == "contexts" then ({ m with status := "" }, [])
    else (m, [Eff.forwardList m.mode])
  else if k == "P" then
    if m.mode != "contexts" then
      ({ m with mode := "contexts", status := "", crumb := "" }, [])
    else (m, [Eff.forwardList m.mode])
  else if k == "/" then m.keySlash
  else if k == "u" then
    ({ m with ultraCompact := !m.ultraCompact,
              status := if !m.ultraCompact then "ULTRA mode: ON" else "ULTRA mode: OFF" },
     [])
  else (m, [Eff.forwardList m.mode])

/-- Model of `tuiModel.Update` (internal/cmd tui): one step of the event loop.  Keys
typed while the active list is filtering are routed into the widget (all
but enter); completion messages of the async fetch tasks fold their results
into the model. -/
def tuiModel.Update (m : tuiModel) (msg : Msg) : tuiModel × List Eff :=
  match msg with
  | .key k =>
      if m.mode == "contexts" && m.list.filtering && k != "enter" then
        (m, [Eff.forwardList "contexts"])
      else if m.mode == "tenancies" && m.tenancies.filtering && k != "enter" then
        (m, [Eff.forwardList "tenancies"])
      else if m.mode == "compartments" && m.comps.filtering && k != "enter" then
        (m, [Eff.forwardList "compartments"])
      else if m.mode == "regions" && m.regions.filtering && k != "enter" then
        (m, [Eff.forwardList "regions"])
      else m.updateKey k
  | .compResult parent items err =>
      match err with
      | some e => ({ m with err := some e }, [Eff.quit])
      | none =>
          let maps := items.foldl
            (fun (acc : List (String × String) × List (String × String)) it =>
              (listInsert acc.1 it.id it.parent, listInsert acc.2 it.id it.name))
            (m.parentMap, m.nameMap)
          let m1 := { m with compCache := listInsert m.compCache parent items,
                             parentMap := maps.1, nameMap := maps.2,
                             comps := m.comps.setItems items,
                             status := if items.isEmpty then
                                 "Leaf compartment: press backspace/delete to go up, or Enter/Space/Ctrl+S to keep current."
                               else "" }
          (m1, [Eff.forwardList m1.mode])
  | .regionResult ctxName items err =>
      match err with
      | some e =>
          ({ m with status := "Region fetch failed: " ++ e ++ " (showing defaults)",
                    regionCache := listInsert m.regionCache ctxName fallbackRegions,
                    regions := m.regions.setItemsSelect0 fallbackRegions }, [])
      | none =>
          let shown := if items.isEmpty then fallbackRegions else items
          ({ m with regionCache := listInsert m.regionCache ctxName items,
                    regions := m.regions.setItemsSelect0 shown,
                    status := "Select region (Space to stage, Ctrl+S to save)" }, [])

/-- Whether an effect is an invocation of `config.Save`. -/
def Eff.isSave : Eff → Bool
  | .save _ _ => true
  | _ => false

/-- The number of `config.Save` invocations among the effects of a step. -/
def saveCount (effs : List Eff) : Nat :=
  (effs.filter Eff.isSave).length

/-- Whether the list widget of the currently active mode is in filtering
state (in which case hotkeys are routed into the filter editor). -/
def tuiModel.activeFiltering (m : tuiModel) : Bool :=
  (m.mode == "contexts" && m.list.filtering) ||
  (m.mode == "tenancies" && m.tenancies.filtering) ||
  (m.mode == "compartments" && m.comps.filtering) ||
  (m.mode == "regions" && m.regions.filtering)

/-! ### Concrete sample states (used to evaluate the theorems) -/

/-- A fresh, unfiltered list widget over the given items. -/
def mkList {α : Type} (items : List α) : UiList α :=
  { items := items, index := 0, filtering := false, visible := items }

/-- The `dev` context of the test fixtures. -/
def devContext : Context :=
  { name := "dev", profile := "DEFAULT", tenancyOCID := "ocid1.tenancy.oc1..ten",
    compartmentOCID := "", region := "us-phoenix-1",
    user := "ocid1.user.oc1..user", notes := "" }

/-- A config holding just the `dev` context with no current context. -/
def sampleConfig : Config :=
  { options := { ociConfigPath := "/tmp/oci", socketPath := "", defaultProfile := "" },
    contexts := [devContext], currentContext := "" }

/-- A TUI session freshly opened on `sampleConfig`. -/
def sampleModel : tuiModel :=
  { list := mkList [devContext], tenancies := mkList [], cfg := sampleConfig,
    cfgPath := "/tmp/cfg", selected := "", profiles := [], err := none,
    mode := "contexts", ctxItem := emptyContext, comps := mkList [],
    regions := mkList [], parentCrumb := "", compCache := [], parentID := "",
    parentMap := [], nameMap := [], status := "", finalized := false,
    crumb := "", regionSet := false, regionCache := [],
    pendingSelectionID := "", pendingSelectionNm := "", pendingRegion := "",
    pendingContextName := "", pendingTenancyOCID := "", ultraCompact := false }

/-- The two-profile fixture of the grouping scenario: profiles `A` and `B`
share tenancy `t1` with different regions. -/
def profilesAB : List (String × Profile) :=
  [("A", { user := "", tenancy := "t1", region := "r1" }),
   ("B", { user := "", tenancy := "t1", region := "r2" })]

/-- A session parked in compartments mode at a staged parent whose child
list is empty. -/
def leafModel : tuiModel :=
  { sampleModel with
    mode := "compartments", ctxItem := devContext,
    parentID := "ocid1.compartment.oc1..wiz" }

/-- A session that has staged a compartment and owns a non-empty tenancy
list. -/
def stagedModel : tuiModel :=
  { sampleModel with
    mode := "compartments", ctxItem := devContext,
    tenancies := mkList [{ tenancyOCID := "t1", profiles := ["DEFAULT"], name := "" }],
    pendingSelectionID := "ocid1.compartment.oc1..child",
    pendingSelectionNm := "child" }

/-- A session whose region cache already holds an entry for `dev`. -/
def cachedRegionModel : tuiModel :=
  { sampleModel with regionCache := [("dev", fallbackRegions)] }

end OciContext

namespace OciContext

/-! ## Helper lemmas about the context store -/

theorem map_name_replaceFirstByName (cs : List Context) (ctx : Context) :
    (replaceFirstByName cs ctx).map (fun x => x.name) = cs.map (fun x => x.name) := by
  induction cs with
  | nil => rfl
  | cons c rest ih =>
      by_cases h : c.name == ctx.name
      · have h' : c.name = ctx.name := by simpa using h
        simp [replaceFirstByName, h, h']
      · simp [replaceFirstByName, h, ih]

theorem containsName_eq_map (cs : List Context) (n : String) :
    containsName cs n = (cs.map (fun x => x.name)).any (fun s => s == n) := by
  induction cs with
  | nil => rfl
  | cons c rest ih => simp [containsName] at ih ⊢; rw [ih]

theorem containsName_replaceFirstByName (cs : List Context) (ctx : Context) (n : String) :
    containsName (replaceFirstByName cs ctx) n = containsName cs n := by
  rw [containsName_eq_map, containsName_eq_map, map_name_replaceFirstByName]

theorem containsName_iff (cs : List Context) (n : String) :
    containsName cs n = true ↔ ∃ x ∈ cs, x.name = n := by
  simp [containsName, List.any_eq_true]

theorem containsName_removeFirstByName_of_ne (cs : List Context) (n cur : String)
    (hne : cur ≠ n) (h : containsName cs cur = true) :
    containsName (removeFirstByName cs n) cur = true := by
  induction cs with
  | nil => simp [containsName] at h
  | cons c rest ih =>
      by_cases hc : c.name == n
      · simp only [removeFirstByName, hc, if_true]
        have hcn : c.name = n := by simpa using hc
        simp only [containsName, List.any_cons, Bool.or_eq_true] at h
        rcases h with hcur | hrest
        · exact absurd (by simpa [hcn] using hcur : n = cur) (Ne.symm hne)
        · exact hrest
      · simp only [containsName, List.any_cons, Bool.or_eq_true] at h
        rw [show removeFirstByName (c :: rest) n = c :: removeFirstByName rest n
              from by simp [removeFirstByName, hc]]
        rcases h with hcur | hrest
        · exact (containsName_iff _ _).2
            ⟨c, List.mem_cons_self _ _, by simpa using hcur⟩
        · rcases (containsName_iff _ _).1 (ih hrest) with ⟨y, hy, hyn⟩
          exact (containsName_iff _ _).2 ⟨y, List.mem_cons_of_mem _ hy, hyn⟩

theorem upsert_preserves_currentOK (c : Config) (ctx : Context)
    (h : currentOK c) : currentOK (c.UpsertContext ctx) := by
  unfold Config.UpsertContext
  by_cases hc : containsName c.contexts ctx.name
  · simp only [hc, if_true]
    rcases h with h | h
    · exact Or.inl h
    · exact Or.inr (by rw [containsName_replaceFirstByName]; exact h)
  · simp only [hc, if_false]
    by_cases hcur : c.currentContext == ""
    · refine Or.inr ?_
      simp only [hcur, if_true]
      exact (containsName_iff _ _).2 ⟨ctx, by simp, rfl⟩
    · simp only [hcur, if_false]
      rcases h with h | h
      · exact absurd h (by simpa using hcur)
      · refine Or.inr ((containsName_iff _ _).2 ?_)
        rcases (containsName_iff _ _).1 h with ⟨x, hx, hxn⟩
        exact ⟨x, List.mem_append_left _ hx, hxn⟩

theorem delete_preserves_currentOK (c : Config) (n : String) (c' : Config)
    (h : currentOK c) (hd : c.DeleteContext n = .ok c') : currentOK c' := by
  unfold Config.DeleteContext at hd
  by_cases hc : containsName c.contexts n
  · simp only [hc, if_true, Except.ok.injEq] at hd
    subst hd
    by_cases hcur : c.currentContext == n
    · exact Or.inl (by simp [hcur])
    · simp only [hcur, if_false]
      rcases h with h | h
      · exact Or.inl h
      · exact Or.inr (containsName_removeFirstByName_of_ne _ _ _
          (by simpa using hcur) h)
  · simp [hc] at hd

theorem applyStoreOp_preserves_currentOK (c : Config) (op : StoreOp)
    (h : currentOK c) : currentOK (applyStoreOp c op) := by
  cases op with
  | upsert ctx => exact upsert_preserves_currentOK c ctx h
  | delete n =>
      cases hd : c.DeleteContext n with
      | ok c2 => simpa [applyStoreOp, hd] using delete_preserves_currentOK c n c2 h hd
      | error e => simpa [applyStoreOp, hd] using h

theorem applyStoreOps_preserves_currentOK (c : Config) (ops : List StoreOp)
    (h : currentOK c) : currentOK (applyStoreOps c ops) := by
  induction ops generalizing c with
  | nil => exact h
  | cons op rest ih =>
      exact ih (applyStoreOp c op) (applyStoreOp_preserves_currentOK c op h)

/-- Claim C2: For every sequence of `UpsertContext`/`DeleteContext` operations
applied to a config whose `currentContext` is empty or names an existing
context, the resulting `currentContext` is empty or names a context present
in the list; and a successful `DeleteContext` of the current context clears
`currentContext`. -/
theorem currentContext_never_dangling (c : Config) (ops : List StoreOp)
    (h : currentOK c) :
    currentOK (applyStoreOps c ops) ∧
    (∀ c' c'' : Config, c'.DeleteContext c'.currentContext = .ok c'' →
       c''.currentContext = "") := by
  refine ⟨applyStoreOps_preserves_currentOK c ops h, ?_⟩
  intro c' c'' hd
  unfold Config.DeleteContext at hd
  by_cases hc : containsName c'.contexts c'.currentContext
  · simp only [hc, if_true, Except.ok.injEq] at hd
    subst hd
    simp
  · simp [hc] at hd

/-- Witness for C2 at a concrete config and operation sequence. -/
theorem currentContext_never_dangling_witness :
    currentOK (applyStoreOps sampleConfig
      [StoreOp.upsert devContext,
       StoreOp.upsert { devContext with name := "prod" },
       StoreOp.delete "dev"]) :=
  (currentContext_never_dangling sampleConfig
    [StoreOp.upsert devContext,
     StoreOp.upsert { devContext with name := "prod" },
     StoreOp.delete "dev"] (by decide)).1

theorem length_replaceFirstByName (cs : List Context) (ctx : Context) :
    (replaceFirstByName cs ctx).length = cs.length := by
  induction cs with
  | nil => rfl
  | cons c rest ih =>
      by_cases h : c.name == ctx.name <;> simp [replaceFirstByName, h, ih]

theorem replaceFirstByName_cons_pos {c ctx : Context} (rest : List Context)
    (h : (c.name == ctx.name) = true) :
    replaceFirstByName (c :: rest) ctx = ctx :: rest := by
  simp [replaceFirstByName, h]

theorem replaceFirstByName_cons_neg {c ctx : Context} (rest : List Context)
    (h : ¬(c.name == ctx.name) = true) :
    replaceFirstByName (c :: rest) ctx = c :: replaceFirstByName rest ctx := by
  simp [replaceFirstByName, h]

theorem filter_name_replaceFirstByName (cs : List Context) (ctx : Context) :
    ((replaceFirstByName cs ctx).filter (fun x => x.name == ctx.name)).length =
    (cs.filter (fun x => x.name == ctx.name)).length := by
  induction cs with
  | nil => rfl
  | cons c rest ih =>
      by_cases h : c.name == ctx.name
      · rw [replaceFirstByName_cons_pos rest h]
        simp [List.filter_cons, h]
      · rw [replaceFirstByName_cons_neg rest h]
        simp [List.filter_cons, h, ih]

theorem length_pos_of_mem_name {cs : List Context} {x : Context} {n : String}
    (hx : x ∈ cs) (hn : x.name = n) :
    0 < (cs.filter (fun y => y.name == n)).length := by
  have hmem : x ∈ cs.filter (fun y => y.name == n) :=
    List.mem_filter.2 ⟨hx, by simp [hn]⟩
  exact List.length_pos.mpr (List.ne_nil_of_mem hmem)

theorem eq_of_mem_replaceFirstByName (cs : List Context) (ctx : Context)
    (hcount : (cs.filter (fun x => x.name == ctx.name)).length ≤ 1) :
    ∀ x ∈ replaceFirstByName cs ctx, x.name = ctx.name → x = ctx := by
  induction cs with
  | nil => intro x hx; simp [replaceFirstByName] at hx
  | cons c rest ih =>
      intro x hx hxn
      by_cases h : c.name == ctx.name
      · rw [replaceFirstByName_cons_pos rest h] at hx
        rcases List.mem_cons.1 hx with rfl | hxrest
        · rfl
        · exfalso
          have h1 : ((c :: rest).filter (fun x => x.name == ctx.name)).length =
              (rest.filter (fun x => x.name == ctx.name)).length + 1 := by
            simp [List.filter_cons, h]
          have h2 := length_pos_of_mem_name hxrest hxn
          omega
      · rw [replaceFirstByName_cons_neg rest h] at hx
        rcases List.mem_cons.1 hx with rfl | hxrest
        · exact absurd hxn (by simpa using h)
        · exact ih (by simpa [List.filter_cons, h] using hcount) x hxrest hxn

theorem filter_name_eq_nil_of_not_contains (cs : List Context) (n : String)
    (h : containsName cs n = false) :
    cs.filter (fun x => x.name == n) = [] := by
  induction cs with
  | nil => rfl
  | cons c rest ih =>
      simp only [containsName, List.any_cons, Bool.or_eq_false_iff] at h
      simp [List.filter_cons, h.1, ih h.2]

theorem upsert_contexts_eq (c : Config) (ctx : Context) :
    (c.UpsertContext ctx).contexts =
    (if containsName c.contexts ctx.name then replaceFirstByName c.contexts ctx
     else c.contexts ++ [ctx]) := by
  unfold Config.UpsertContext
  split <;> rfl

theorem containsName_append_single (cs : List Context) (ctx : Context) (n : String) :
    containsName (cs ++ [ctx]) n = (containsName cs n || (ctx.name == n)) := by
  simp [containsName, List.any_append]

/-- Claim C6: `UpsertContext` is idempotent on name: for every config storing
at most one context under the shared name, upserting `c1` and then `c2`
(same name) leaves exactly one stored context with that name, its fields
are those of the latest upsert, and the list grows by at most one. -/
theorem upsert_idempotent_on_name (c : Config) (c1 c2 : Context)
    (hname : c1.name = c2.name)
    (hcount : (c.contexts.filter (fun x => x.name == c2.name)).length ≤ 1) :
    (((c.UpsertContext c1).UpsertContext c2).contexts.filter
        (fun x => x.name == c2.name)).length = 1 ∧
    (∀ x ∈ ((c.UpsertContext c1).UpsertContext c2).contexts,
        x.name = c2.name → x = c2) ∧
    ((c.UpsertContext c1).UpsertContext c2).contexts.length ≤
      c.contexts.length + 1 := by
  have hc1 : (c.UpsertContext c1).contexts =
      (if containsName c.contexts c1.name then replaceFirstByName c.contexts c1
       else c.contexts ++ [c1]) := upsert_contexts_eq c c1
  by_cases hA : containsName c.contexts c1.name
  · -- the name existed: both upserts replace in place
    rw [if_pos hA] at hc1
    have hcontains1 : containsName (c.UpsertContext c1).contexts c2.name = true := by
      rw [hc1, ← hname, containsName_replaceFirstByName]
      exact hA
    have hc2 : ((c.UpsertContext c1).UpsertContext c2).contexts =
        replaceFirstByName (c.UpsertContext c1).contexts c2 := by
      rw [upsert_contexts_eq, if_pos hcontains1]
    have hcount1 : ((c.UpsertContext c1).contexts.filter
        (fun x => x.name == c2.name)).length ≤ 1 := by
      rw [hc1, ← hname, filter_name_replaceFirstByName, hname]
      exact hcount
    have hpos : 0 < (c.contexts.filter (fun x => x.name == c2.name)).length := by
      rcases (containsName_iff _ _).1 hA with ⟨x, hx, hxn⟩
      exact length_pos_of_mem_name hx (hxn.trans hname)
    refine ⟨?_, ?_, ?_⟩
    · rw [hc2, filter_name_replaceFirstByName, hc1, ← hname,
        filter_name_replaceFirstByName]
      have hpos' : 0 < (c.contexts.filter (fun x => x.name == c1.name)).length := by
        rw [hname]; exact hpos
      have hcount' : (c.contexts.filter (fun x => x.name == c1.name)).length ≤ 1 := by
        rw [hname]; exact hcount
      omega
    · rw [hc2]
      exact eq_of_mem_replaceFirstByName _ c2 hcount1
    · rw [hc2, length_replaceFirstByName, hc1, length_replaceFirstByName]
      omega
  · -- the name was new: the first upsert appends, the second replaces it
    rw [if_neg hA] at hc1
    have hAn : containsName c.contexts c2.name = false := by
      rw [← hname]
      simpa using hA
    have hnil : c.contexts.filter (fun x => x.name == c2.name) = [] :=
      filter_name_eq_nil_of_not_contains _ _ hAn
    have hfilter1 : (c.UpsertContext c1).contexts.filter
        (fun x => x.name == c2.name) = [c1] := by
      rw [hc1, List.filter_append, hnil]
      simp [List.filter_cons, hname]
    have hcontains1 : containsName (c.UpsertContext c1).contexts c2.name = true := by
      rw [hc1, containsName_append_single, hAn]
      simp [hname]
    have hc2 : ((c.UpsertContext c1).UpsertContext c2).contexts =
        replaceFirstByName (c.UpsertContext c1).contexts c2 := by
      rw [upsert_contexts_eq, if_pos hcontains1]
    refine ⟨?_, ?_, ?_⟩
    · rw [hc2, filter_name_replaceFirstByName, hfilter1]
      rfl
    · rw [hc2]
      exact eq_of_mem_replaceFirstByName _ c2 (by rw [hfilter1]; simp)
    · rw [hc2, length_replaceFirstByName, hc1]
      simp

/-- Witness for C6: upserting the same name twice with different fields on a
fresh config yields exactly one stored context carrying the latest fields. -/
theorem upsert_idempotent_on_name_witness :
    (((sampleConfig.UpsertContext { devContext with region := "eu-zurich-1" }).UpsertContext
        { devContext with region := "uk-london-1" }).contexts.filter
        (fun x => x.name == "dev")).length = 1 ∧
    (∀ x ∈ ((sampleConfig.UpsertContext { devContext with region := "eu-zurich-1" }).UpsertContext
        { devContext with region := "uk-london-1" }).contexts,
        x.name = "dev" → x = { devContext with region := "uk-london-1" }) ∧
    ((sampleConfig.UpsertContext { devContext with region := "eu-zurich-1" }).UpsertContext
        { devContext with region := "uk-london-1" }).contexts.length ≤
      sampleConfig.contexts.length + 1 :=
  upsert_idempotent_on_name sampleConfig
    { devContext with region := "eu-zurich-1" }
    { devContext with region := "uk-london-1" } rfl (by decide)

theorem getElem?_replaceFirstByName (cs : List Context) (ctx d : Context) (i : Nat)
    (hd : d.name ≠ ctx.name) (hg : cs[i]? = some d) :
    (replaceFirstByName cs ctx)[i]? = some d := by
  induction cs generalizing i with
  | nil => simp at hg
  | cons c rest ih =>
      by_cases h : c.name == ctx.name
      · rw [replaceFirstByName_cons_pos rest h]
        cases i with
        | zero =>
            exfalso
            have hcd : c = d := by simpa using hg
            exact hd (by simpa [← hcd] using h)
        | succ j => simpa using (by simpa using hg)
      · rw [replaceFirstByName_cons_neg rest h]
        cases i with
        | zero => simpa using hg
        | succ j =>
            have := ih j (by simpa using hg)
            simpa using this

/-- Claim C9: Frame conditions of `UpsertContext`: a non-empty
`currentContext` is left unchanged; every stored context with a different
name keeps its fields and its position; and `currentContext` is assigned
(to the inserted name) only when it was empty and the name was absent. -/
theorem upsert_frame_conditions (c : Config) (ctx : Context)
    (h : c.currentContext ≠ "") :
    (c.UpsertContext ctx).currentContext = c.currentContext ∧
    (∀ (i : Nat) (d : Context), c.contexts[i]? = some d → d.name ≠ ctx.name →
        (c.UpsertContext ctx).contexts[i]? = some d) ∧
    (∀ c' : Config, (c'.UpsertContext ctx).currentContext ≠ c'.currentContext →
        c'.currentContext = "" ∧ containsName c'.contexts ctx.name = false ∧
        (c'.UpsertContext ctx).currentContext = ctx.name) := by
  refine ⟨?_, ?_, ?_⟩
  · unfold Config.UpsertContext
    split
    · rfl
    · simp only
      rw [if_neg (by simpa using h)]
  · intro i d hg hd
    unfold Config.UpsertContext
    split
    · exact getElem?_replaceFirstByName c.contexts ctx d i hd hg
    · simp only
      rcases List.getElem?_eq_some.1 hg with ⟨hi, _⟩
      rw [List.getElem?_append_left hi]
      exact hg
  · intro c' hne
    unfold Config.UpsertContext at hne ⊢
    by_cases hc : containsName c'.contexts ctx.name
    · simp [hc] at hne
    · simp only [hc, if_false] at hne ⊢
      by_cases hcur : c'.currentContext == ""
      · exact ⟨by simpa using hcur, by simpa using hc, by simp [hcur]⟩
      · simp [hcur] at hne

/-- Witness for C9 at a concrete config with a current context set. -/
theorem upsert_frame_conditions_witness :
    (({ sampleConfig with currentContext := "dev" }.UpsertContext
        { devContext with name := "prod" }).currentContext = "dev" ∧
     (∀ (i : Nat) (d : Context),
        ({ sampleConfig with currentContext := "dev" } : Config).contexts[i]? = some d →
        d.name ≠ ({ devContext with name := "prod" } : Context).name →
        ({ sampleConfig with currentContext := "dev" }.UpsertContext
          { devContext with name := "prod" }).contexts[i]? = some d) ∧
     (∀ c' : Config,
        (c'.UpsertContext { devContext with name := "prod" }).currentContext ≠
          c'.currentContext →
        c'.currentContext = "" ∧
        containsName c'.contexts ({ devContext with name := "prod" } : Context).name = false ∧
        (c'.UpsertContext { devContext with name := "prod" }).currentContext =
          ({ devContext with name := "prod" } : Context).name)) :=
  upsert_frame_conditions { sampleConfig with currentContext := "dev" }
    { devContext with name := "prod" } (by decide)

/-- Claim C3: A received line that is not valid JSON is answered with
`{ok:false, error:"invalid request"}` and the handling loop continues: a
subsequent well-formed request on the same connection is still processed
and answered, and every line read before the terminating read error gets
exactly one response. -/
theorem malformed_line_answered_connection_continues {δ : Type}
    (handler : Request → Except String δ) (r : Request) (rest : List WireLine) :
    handleConn handler (WireLine.malformed :: rest) =
      ({ ok := false, error := "invalid request", data := none } : Response δ) ::
        handleConn handler rest ∧
    handleConn handler (WireLine.malformed :: WireLine.request r :: rest) =
      ({ ok := false, error := "invalid request", data := none } : Response δ) ::
        (match handler r with
         | .error e => { ok := false, error := e, data := none }
         | .ok d => { ok := true, error := "", data := some d }) ::
        handleConn handler rest ∧
    (∀ lines : List WireLine, (handleConn handler lines).length = lines.length) := by
  refine ⟨rfl, rfl, ?_⟩
  intro lines
  induction lines with
  | nil => rfl
  | cons l rest ih =>
      cases l with
      | malformed => simp [handleConn, ih]
      | request req => cases hr : handler req <;> simp [handleConn, hr, ih]

/-- Claim C10: `export` with an empty format string replies with the
structured context payload exactly as format `"json"` does, and only
formats other than `"env"`, `"json"`, `""` produce the unsupported-format
error. -/
theorem export_empty_format_is_json (cfg : Config) (c : Context)
    (hcur : Service.getCurrent cfg = .ok c) :
    Service.«export» cfg "" = .ok (ExportData.ctxData c) ∧
    Service.«export» cfg "" = Service.«export» cfg "json" ∧
    (∀ f : String, f ≠ "env" → f ≠ "json" → f ≠ "" →
       Service.«export» cfg f = .error ("unsupported format: " ++ f)) := by
  refine ⟨?_, ?_, ?_⟩
  · unfold Service.«export»
    rw [hcur]
    simp
  · unfold Service.«export»
    rw [hcur]
    simp
  · intro f h1 h2 h3
    have e1 : (f == "env") = false := by simpa using h1
    have e2 : (f == "json") = false := by simpa using h2
    have e3 : (f == "") = false := by simpa using h3
    unfold Service.«export»
    rw [hcur]
    simp [e1, e2, e3]

/-- Witness for C10 at a config whose current context is `dev`. -/
theorem export_empty_format_is_json_witness :
    Service.«export» { sampleConfig with currentContext := "dev" } "" =
      .ok (ExportData.ctxData devContext) ∧
    Service.«export» { sampleConfig with currentContext := "dev" } "" =
      Service.«export» { sampleConfig with currentContext := "dev" } "json" ∧
    (∀ f : String, f ≠ "env" → f ≠ "json" → f ≠ "" →
       Service.«export» { sampleConfig with currentContext := "dev" } f =
         .error ("unsupported format: " ++ f)) :=
  export_empty_format_is_json { sampleConfig with currentContext := "dev" }
    devContext rfl

theorem filter_tenancyOCID_map (ocids : List String) (g : String → tenancyItem)
    (hg : ∀ o, (g o).tenancyOCID = o) (t : String) :
    (ocids.map g).filter (fun it => it.tenancyOCID == t) =
    (ocids.filter (fun o => o == t)).map g := by
  induction ocids with
  | nil => rfl
  | cons o rest ih =>
      by_cases ho : o == t <;> simp [List.filter_cons, hg, ho, ih]

theorem filter_eq_singleton_of_nodup {l : List String} {t : String}
    (hnd : l.Nodup) (ht : t ∈ l) : l.filter (fun o => o == t) = [t] := by
  induction l with
  | nil => simp at ht
  | cons a rest ih =>
      rcases List.mem_cons.1 ht with rfl | hrest
      · have hnil : rest.filter (fun o => o == t) = [] := by
          refine List.filter_eq_nil_iff.2 (fun x hx => ?_)
          have hxt : x ≠ t := by
            rintro rfl
            exact (List.nodup_cons.1 hnd).1 hx
          simpa using hxt
        simp [List.filter_cons, hnil]
      · have hat : a ≠ t := by
          rintro rfl
          exact (List.nodup_cons.1 hnd).1 hrest
        simp [List.filter_cons, hat, ih (List.nodup_cons.1 hnd).2 hrest]

/-- Claim C7: Profiles sharing a tenancy id are grouped into exactly one
tenancy item whose `Profiles` list holds their names sorted
lexicographically; selecting a tenancy resolves the configured default
profile when it exists and belongs to the tenancy, and otherwise the first
(lexicographically smallest) profile listed under it. -/
theorem tenancy_grouping_and_representative
    (profiles : List (String × Profile)) (tenancyNames : String → String)
    (t : String) (ht : t ∈ profiles.map (fun nv => nv.2.tenancy)) :
    ((tenanciesFromProfiles profiles tenancyNames).filter
        (fun it => it.tenancyOCID == t)).length = 1 ∧
    (∀ item ∈ tenanciesFromProfiles profiles tenancyNames, item.tenancyOCID = t →
        (item.profiles = sortStrings ((profiles.filter
            (fun nv => nv.2.tenancy == t)).map (fun nv => nv.1)) ∧
         item.profiles.Sorted (· ≤ ·) ∧
         (∀ n : String, n ∈ item.profiles ↔
            ∃ p : Profile, (n, p) ∈ profiles ∧ p.tenancy = t))) ∧
    (∀ (item : tenancyItem) (dp : String) (p : Profile),
        dp ≠ "" → listLookup profiles dp = some p → p.tenancy = item.tenancyOCID →
        selectProfileForTenancy item profiles dp = dp) ∧
    (∀ item : tenancyItem,
        selectProfileForTenancy item profiles "" = item.profiles.headD "") := by
  have hperm := List.perm_insertionSort (α := String) (· ≤ ·)
  have hocid : t ∈ sortStrings ((profiles.map (fun nv => nv.2.tenancy)).dedup) :=
    (hperm _).mem_iff.2 (List.mem_dedup.2 ht)
  have hnd : (sortStrings ((profiles.map (fun nv => nv.2.tenancy)).dedup)).Nodup :=
    (hperm _).nodup_iff.2 (List.nodup_dedup _)
  refine ⟨?_, ?_, ?_, ?_⟩
  · unfold tenanciesFromProfiles
    rw [filter_tenancyOCID_map _ _ (fun o => rfl) t,
      filter_eq_singleton_of_nodup hnd hocid]
    rfl
  · intro item hmem hts
    unfold tenanciesFromProfiles at hmem
    rcases List.mem_map.1 hmem with ⟨o, ho, rfl⟩
    have hot : o = t := hts
    subst hot
    refine ⟨rfl, List.sorted_insertionSort _ _, fun n => ?_⟩
    constructor
    · intro hn
      have hn2 : n ∈ (profiles.filter (fun nv => nv.2.tenancy == o)).map
          (fun nv => nv.1) := (hperm _).mem_iff.1 hn
      rcases List.mem_map.1 hn2 with ⟨nv, hnv, rfl⟩
      have hf := List.mem_filter.1 hnv
      exact ⟨nv.2, by simpa using hf.1, by simpa using hf.2⟩
    · rintro ⟨p, hp, hpt⟩
      refine (hperm _).mem_iff.2 (List.mem_map.2 ⟨(n, p), List.mem_filter.2 ⟨hp, ?_⟩, rfl⟩)
      simpa using hpt
  · intro item dp p hdp hlook hpt
    have hb : (dp != "") = true := by simpa using hdp
    simp [selectProfileForTenancy, hb, hlook, hpt]
  · intro item
    simp only [selectProfileForTenancy]
    cases item.profiles <;> simp

/-- Witness for C7: the `A`/`B`-on-`t1` scenario groups into one tenancy
item and with no configured default the representative is `A`. -/
theorem tenancy_grouping_and_representative_witness :
    ((tenanciesFromProfiles profilesAB (fun _ => "")).filter
        (fun it => it.tenancyOCID == "t1")).length = 1 ∧
    selectProfileForTenancy
      { tenancyOCID := "t1", profiles := ["A", "B"], name := "" }
      profilesAB "" = "A" := by
  have h := tenancy_grouping_and_representative profilesAB (fun _ => "") "t1"
    (by decide)
  exact ⟨h.1, (h.2.2.2 { tenancyOCID := "t1", profiles := ["A", "B"], name := "" }).trans rfl⟩

theorem listLookup_listInsert_self {α : Type} (l : List (String × α)) (k : String) (v : α) :
    listLookup (listInsert l k v) k = some v := by
  induction l with
  | nil => simp [listInsert, listLookup]
  | cons kv rest ih =>
      by_cases h : kv.1 == k <;> simp [listInsert, listLookup, h, ih]

/-- Claim C1: The quit keys (`esc`, `ctrl+c`) never mutate the store: no
`save` is invoked, the in-memory config is untouched and the `finalized`
flag is unchanged (so it stays false for a running session); outside
filtering the quit key ends the session immediately; and the commit path
(`finalizeSelection`) invokes `save` exactly once and then ends the
session. -/
theorem quit_no_mutation_commit_saves_once (m : tuiModel) (k : String)
    (hk : k = "esc" ∨ k = "ctrl+c") :
    (saveCount (m.Update (.key k)).2 = 0 ∧
     (m.Update (.key k)).1.cfg = m.cfg ∧
     (m.Update (.key k)).1.finalized = m.finalized) ∧
    (m.activeFiltering = false → (m.Update (.key k)).2 = [Eff.quit]) ∧
    (∀ m' : tuiModel,
        m'.finalizeSelection.2 =
          [Eff.save m'.cfgPath m'.finalizeSelection.1.cfg, Eff.quit] ∧
        saveCount m'.finalizeSelection.2 = 1) := by
  refine ⟨?_, ?_, fun m' => ⟨rfl, rfl⟩⟩
  · rcases hk with rfl | rfl
    · have hkey : m.updateKey "esc" = (m, [Eff.quit]) := rfl
      simp only [tuiModel.Update]
      split_ifs <;> simp [hkey, saveCount, Eff.isSave]
    · have hkey : m.updateKey "ctrl+c" = (m, [Eff.quit]) := rfl
      simp only [tuiModel.Update]
      split_ifs <;> simp [hkey, saveCount, Eff.isSave]
  · intro hnf
    simp only [tuiModel.activeFiltering, Bool.or_eq_false_iff] at hnf
    obtain ⟨⟨⟨h1, h2⟩, h3⟩, h4⟩ := hnf
    rcases hk with rfl | rfl
    · have hkey : m.updateKey "esc" = (m, [Eff.quit]) := rfl
      simp [tuiModel.Update, h1, h2, h3, h4, hkey]
    · have hkey : m.updateKey "ctrl+c" = (m, [Eff.quit]) := rfl
      simp [tuiModel.Update, h1, h2, h3, h4, hkey]

/-- Witness for C1: pressing `esc` on a fresh session quits at once with no
save and the config and committed flag untouched. -/
theorem quit_no_mutation_commit_saves_once_witness :
    saveCount (sampleModel.Update (.key "esc")).2 = 0 ∧
    (sampleModel.Update (.key "esc")).1.cfg = sampleModel.cfg ∧
    (sampleModel.Update (.key "esc")).1.finalized = sampleModel.finalized ∧
    (sampleModel.Update (.key "esc")).2 = [Eff.quit] := by
  have h := quit_no_mutation_commit_saves_once sampleModel "esc" (Or.inl rfl)
  exact ⟨h.1.1, h.1.2.1, h.1.2.2, h.2.1 rfl⟩

/-- Claim C4: A failed region fetch for a context stores the built-in
fallback list in the region cache under that context's name and shows it
(without scheduling any further fetch); re-entering region mode via `r` for
a context whose regions are cached serves the cached list and performs no
remote region fetch. -/
theorem region_fallback_cached_no_refetch
    (mfail m : tuiModel) (ctxName e : String) (items cached : List String)
    (item : Context)
    (hmode : m.mode = "contexts") (hfilter : m.list.filtering = false)
    (hsel : m.list.selectedItem = some item)
    (hcache : listLookup m.regionCache item.name = some cached) :
    (listLookup (mfail.Update (.regionResult ctxName items (some e))).1.regionCache ctxName
        = some fallbackRegions ∧
     (mfail.Update (.regionResult ctxName items (some e))).1.regions.items = fallbackRegions ∧
     (mfail.Update (.regionResult ctxName items (some e))).2 = []) ∧
    ((m.Update (.key "r")).1.mode = "regions" ∧
     (m.Update (.key "r")).1.regions.items = cached ∧
     (m.Update (.key "r")).2 = []) := by
  refine ⟨⟨?_, rfl, rfl⟩, ?_, ?_, ?_⟩
  · exact listLookup_listInsert_self mfail.regionCache ctxName fallbackRegions
  all_goals
    simp [tuiModel.Update, tuiModel.updateKey, tuiModel.keyRegionLower,
      UiList.setItemsSelect0, hmode, hfilter, hsel, hcache]

/-- Witness for C4: after a failed fetch for `dev`, its cache holds the
fallback list, and pressing `r` with `dev` selected reuses the cache. -/
theorem region_fallback_cached_no_refetch_witness :
    (listLookup (sampleModel.Update
        (.regionResult "dev" [] (some "boom"))).1.regionCache "dev"
        = some fallbackRegions ∧
     (sampleModel.Update (.regionResult "dev" [] (some "boom"))).1.regions.items =
       fallbackRegions ∧
     (sampleModel.Update (.regionResult "dev" [] (some "boom"))).2 = []) ∧
    ((cachedRegionModel.Update (.key "r")).1.mode = "regions" ∧
     (cachedRegionModel.Update (.key "r")).1.regions.items = fallbackRegions ∧
     (cachedRegionModel.Update (.key "r")).2 = []) :=
  region_fallback_cached_no_refetch sampleModel cachedRegionModel
    "dev" "boom" [] fallbackRegions devContext rfl rfl rfl rfl

/-- Claim C5: Confirming in compartments mode when the listed children are
empty commits the current parent: the session finalizes with the active
context's compartment id set to the parent id, the context becomes current,
and the config is upserted and saved. -/
theorem leaf_confirm_commits_parent (m : tuiModel)
    (hmode : m.mode = "compartments")
    (hempty : m.comps.items = [])
    (hfilter : m.comps.filtering = false) :
    (m.Update (.key "enter")).1.finalized = true ∧
    (m.Update (.key "enter")).1.ctxItem.compartmentOCID = m.parentID ∧
    (m.Update (.key "enter")).1.cfg.currentContext = m.ctxItem.name ∧
    (m.Update (.key "enter")).1.cfg =
      ({ m.cfg with currentContext := m.ctxItem.name }).UpsertContext
        { m.ctxItem with compartmentOCID := m.parentID } ∧
    (m.Update (.key "enter")).2 =
      [Eff.save m.cfgPath ((m.Update (.key "enter")).1.cfg), Eff.quit] := by
  have hname : ∀ (c : Config) (ctx : Context),
      (({ c with currentContext := ctx.name } : Config).UpsertContext ctx).currentContext =
        ctx.name := by
    intro c ctx
    unfold Config.UpsertContext
    split
    · rfl
    · simp only
      split <;> rfl
  have hstep : m.Update (.key "enter") = m.finalizeSelection := by
    simp [tuiModel.Update, tuiModel.updateKey, tuiModel.keyEnter, hmode, hfilter,
      hempty]
  rw [hstep]
  exact ⟨rfl, rfl, hname m.cfg { m.ctxItem with compartmentOCID := m.parentID },
    rfl, rfl⟩

/-- Witness for C5: with a staged drill position and no children listed,
enter finalizes at that parent and saves. -/
theorem leaf_confirm_commits_parent_witness :
    (leafModel.Update (.key "enter")).1.finalized = true ∧
    (leafModel.Update (.key "enter")).1.ctxItem.compartmentOCID =
      "ocid1.compartment.oc1..wiz" ∧
    (leafModel.Update (.key "enter")).1.cfg.currentContext = "dev" := by
  have h := leaf_confirm_commits_parent leafModel rfl rfl rfl
  exact ⟨h.1, h.2.1, h.2.2.1⟩

/-- Claim C8: A staged compartment selection survives switching from
compartments mode to the tenancy list (`T`) and back to compartments
(`C`): the staged id and name are unchanged after both switches. -/
theorem staged_compartment_persists_mode_switch (m : tuiModel)
    (hmode : m.mode = "compartments")
    (hcfilter : m.comps.filtering = false)
    (htfilter : m.tenancies.filtering = false)
    (hten : m.tenancies.items ≠ []) :
    (m.Update (.key "T")).1.mode = "tenancies" ∧
    (m.Update (.key "T")).1.pendingSelectionID = m.pendingSelectionID ∧
    (m.Update (.key "T")).1.pendingSelectionNm = m.pendingSelectionNm ∧
    ((m.Update (.key "T")).1.Update (.key "C")).1.mode = "compartments" ∧
    ((m.Update (.key "T")).1.Update (.key "C")).1.pendingSelectionID =
      m.pendingSelectionID ∧
    ((m.Update (.key "T")).1.Update (.key "C")).1.pendingSelectionNm =
      m.pendingSelectionNm := by
  have hten' : m.tenancies.items.isEmpty = false := by
    cases h : m.tenancies.items with
    | nil => exact absurd h hten
    | cons a l => rfl
  have hT : m.Update (.key "T") =
      ({ m with mode := "tenancies",
                status := "Select tenancy (Enter to use a profile and open root)" },
       []) := by
    simp [tuiModel.Update, tuiModel.updateKey, tuiModel.keyTenancies, hmode,
      hcfilter, hten']
  rw [hT]
  refine ⟨rfl, rfl, rfl, ?_, ?_, ?_⟩ <;>
    simp [tuiModel.Update, tuiModel.updateKey, tuiModel.keyCompUpper,
      tuiModel.openCompartmentsFor, htfilter]

/-- Witness for C8: a staged compartment id survives `T` then `C` on a
concrete session. -/
theorem staged_compartment_persists_mode_switch_witness :
    (stagedModel.Update (.key "T")).1.mode = "tenancies" ∧
    (stagedModel.Update (.key "T")).1.pendingSelectionID =
      "ocid1.compartment.oc1..child" ∧
    ((stagedModel.Update (.key "T")).1.Update (.key "C")).1.mode = "compartments" ∧
    ((stagedModel.Update (.key "T")).1.Update (.key "C")).1.pendingSelectionID =
      "ocid1.compartment.oc1..child" := by
  have h := staged_compartment_persists_mode_switch stagedModel rfl rfl rfl
    (by decide)
  exact ⟨h.1, h.2.1, h.2.2.2.1, h.2.2.2.2.1⟩

theorem length_filter_name_eq (l1 l2 : List Context) (n : String)
    (h : l1.map (fun x => x.name) = l2.map (fun x => x.name)) :
    (l1.filter (fun x => x.name == n)).length =
    (l2.filter (fun x => x.name == n)).length := by
  induction l1 generalizing l2 with
  | nil => cases l2 <;> simp_all
  | cons a t ih =>
      cases l2 with
      | nil => simp at h
      | cons b t2 =>
          simp only [List.map_cons, List.cons.injEq] at h
          by_cases hb : b.name == n <;>
            simp [List.filter_cons, h.1, hb, ih t2 h.2]

theorem removeFirstByName_sublist (cs : List Context) (n : String) :
    (removeFirstByName cs n).Sublist cs := by
  induction cs with
  | nil => simp [removeFirstByName]
  | cons c rest ih =>
      by_cases h : c.name == n
      · simp only [removeFirstByName, h, if_true]
        exact (List.sublist_cons_self c rest)
      · simp only [removeFirstByName, h, if_false]
        exact List.Sublist.cons₂ c ih

/-- The name-uniqueness invariant of the data model (at most one stored
context per name) is preserved by `UpsertContext`;
together with `applyStoreOp_preserves_name_unique` this discharges the
well-formedness hypothesis of the idempotence claim on every reachable
config. -/
theorem upsert_preserves_name_unique (c : Config) (ctx : Context)
    (h : ∀ n, (c.contexts.filter (fun x => x.name == n)).length ≤ 1) (n : String) :
    ((c.UpsertContext ctx).contexts.filter (fun x => x.name == n)).length ≤ 1 := by
  rw [upsert_contexts_eq]
  split
  · rw [length_filter_name_eq _ c.contexts n (map_name_replaceFirstByName _ _)]
    exact h n
  · rename_i hc
    rw [List.filter_append]
    by_cases hn : ctx.name == n
    · have hcn : containsName c.contexts n = false := by
        have he : ctx.name = n := by simpa using hn
        rw [← he]
        simpa using hc
      have h0 : c.contexts.filter (fun x => x.name == n) = [] :=
        filter_name_eq_nil_of_not_contains _ _ hcn
      simp [h0, hn]
    · have h1 : List.filter (fun x => x.name == n) [ctx] = [] := by simp [hn]
      simpa [h1] using h n

/-- Any store operation preserves the at-most-one-context-per-name
invariant. -/
theorem applyStoreOp_preserves_name_unique (c : Config) (op : StoreOp)
    (h : ∀ n, (c.contexts.filter (fun x => x.name == n)).length ≤ 1) (n : String) :
    ((applyStoreOp c op).contexts.filter (fun x => x.name == n)).length ≤ 1 := by
  cases op with
  | upsert ctx => exact upsert_preserves_name_unique c ctx h n
  | delete nm =>
      have hsub : ∀ c2 : Config, c.DeleteContext nm = .ok c2 →
          (c2.contexts.filter (fun x => x.name == n)).length ≤ 1 := by
        intro c2 hd
        unfold Config.DeleteContext at hd
        by_cases hc : containsName c.contexts nm
        · simp only [hc, if_true, Except.ok.injEq] at hd
          subst hd
          calc ((removeFirstByName c.contexts nm).filter
                  (fun x => x.name == n)).length
              ≤ (c.contexts.filter (fun x => x.name == n)).length :=
                ((removeFirstByName_sublist c.contexts nm).filter _).length_le
            _ ≤ 1 := h n
        · simp [hc] at hd
      cases hd : c.DeleteContext nm with
      | ok c2 => simpa [applyStoreOp, hd] using hsub c2 hd
      | error e => simpa [applyStoreOp, hd] using h n

end OciContext
